import Mathlib

/-!
Verification of the pcbrepair decode pipeline.

This file gives a shallow embedding, in Lean, of the core of the
`pcbrepair` Rust crate (files `src/crypto.rs`, `src/decoder.rs`,
`src/parser.rs`, `src/interpreter.rs`) and proves properties of the
embedded definitions.

Modelling conventions:
* Bytes and 32-bit machine words are `Nat` with explicit `% 2^32`
  (resp. values `< 256`) where wrapping matters.
* A Rust operation that can panic (out-of-range slice indexing,
  `Decimal` division by zero) is modelled by the distinguished result
  `Res.panicked`; a Rust `Err(..)` is `Res.err ..`.
* The external zlib inflater (crate `flate2`) is an oracle parameter
  `infl : List Nat → Option (List Nat)` giving, for a byte sequence,
  the decompression of the zlib stream at its start (`none` = failure).
* The external exact-decimal arithmetic (crate `rust_decimal`) is
  modelled by `ℚ`, the exact decimal semantics the design document
  specifies; `Decimal::new(254, 4)` is `254 / 10000 : ℚ`.
* The external csv reader (crate `csv`, `!`-delimited, flexible) is
  modelled by presenting the content parser with its list of records,
  each a list of string fields; `ByteRecord` indexing out of range
  panics, modelled by `fieldChk`.
-/

namespace PcbRepair

/-- 2^32, the modulus of the cipher's 32-bit word arithmetic. -/
def W32 : Nat := 4294967296

/-- Wrapping 32-bit addition (`u32::wrapping_add`). -/
def wadd (a b : Nat) : Nat := (a + b) % W32

/-- Wrapping 32-bit multiplication (`u32::wrapping_mul`). -/
def wmul (a b : Nat) : Nat := (a * b) % W32

/-- 32-bit left rotation by `s % 32` bits (`u32::rotate_left`). -/
def rotl (x s : Nat) : Nat :=
  let k := s % 32
  (x * 2 ^ k) % W32 + x / 2 ^ (32 - k) % 2 ^ k

/-- Assemble four bytes into a little-endian 32-bit value. -/
def le32 (b0 b1 b2 b3 : Nat) : Nat := b0 + 256 * b1 + 65536 * b2 + 16777216 * b3

/-- `u32::from_le_bytes` of four consecutive bytes of `l` starting at `i`. -/
def readLE32 (l : List Nat) (i : Nat) : Nat :=
  le32 (l.getD i 0) (l.getD (i+1) 0) (l.getD (i+2) 0) (l.getD (i+3) 0)

/-- One round of the RC6 loop body (`crypto.rs` lines 51-62,
duplicated in `decoder.rs` lines 58-69): after updating `a` and `c`
the four words are rotated one position. -/
def rc6Round (key : Nat → Nat) (i : Nat) : Nat × Nat × Nat × Nat → Nat × Nat × Nat × Nat :=
  fun (a, b, c, d) =>
    let t := rotl (wmul b ((2 * b) % W32 + 1)) 5
    let u := rotl (wmul d ((2 * d) % W32 + 1)) 5
    let a' := wadd (rotl (a ^^^ t) u) (key (2 * i))
    let c' := wadd (rotl (c ^^^ u) t) (key (2 * i + 1))
    (b, c', d, a')

/-- `rc6_encrypt_block`: RC6-32/20 block encryption of a 16-byte block,
returning the four output words `(a, b, c, d)`. -/
def rc6_encrypt_block (block : List Nat) (key : Nat → Nat) : Nat × Nat × Nat × Nat :=
  let a := readLE32 block 0
  let b := wadd (readLE32 block 4) (key 0)
  let c := readLE32 block 8
  let d := wadd (readLE32 block 12) (key 1)
  let r := (List.range 20).foldl (fun s i => rc6Round key (i + 1) s) (a, b, c, d)
  (wadd r.1 (key 42), r.2.1, wadd r.2.2.1 (key 43), r.2.2.2)

/-- The 44-word `FZ_EXPANDED_KEY` constant (key schedule "A"). -/
def FZ_LIST : List Nat := [
  0x25d8d248, 0xe1502405, 0x56b5d486, 0x69213fe0, 0xa22490ec, 0x01fdd9fa, 0x0681955f, 0x0fac202d,
  0xdac9eeb4, 0xf6024aba, 0xcd8b4cc6, 0x9f307c8e, 0x4ab8fad7, 0x232f967d, 0x5e8666a3, 0xde966d4b,
  0xc64bfb1c, 0xea7fb092, 0x1a751a7e, 0x37e8f0bc, 0x3359c8f3, 0x969ac22b, 0x610f5804, 0xd99d10e6,
  0xc58d54d6, 0x1f9aea8b, 0x8e388c1a, 0xe4f7d2ed, 0x3e5da1f6, 0xedfe818a, 0x7252b016, 0xb503a170,
  0xc4128fb6, 0x2c93ceeb, 0x53539a6e, 0xdacf7668, 0x3ab78e52, 0x8ee9d815, 0x7043f799, 0xc6a05dcf,
  0x727f1da2, 0x0dfd983b, 0x78c53872, 0x00945692]

/-- The 44-word `CAE_EXPANDED_KEY` constant (key schedule "B"). -/
def CAE_LIST : List Nat := [
  0x477fa6a2, 0xfb9b5e2b, 0x77bcac57, 0x2d7cef8c, 0x69825182, 0xfa231194, 0x96ee6d48, 0x520a9b74,
  0x0619cb60, 0x95918dfb, 0x1c829771, 0x03f6655c, 0xbba3b302, 0xf3cbcc66, 0xb42e9ac7, 0x417b37dd,
  0x34854b8c, 0xf95a9547, 0x7950401e, 0xc3271f83, 0x0e7c9a6e, 0xcfa7f799, 0x616d9d05, 0x200ac08f,
  0x7cdb242f, 0x30d3bc5e, 0x2983cc29, 0x9da249c9, 0x7509f015, 0x6632580e, 0x83247f04, 0x6525ed71,
  0x02fa242a, 0x47b12928, 0x7ed51b5d, 0xf69cd51b, 0x66f24c77, 0x042856b9, 0x00e37970, 0x88b6624d,
  0x6826cd76, 0xd2a4c9fe, 0x2eff487a, 0x09648fae]

/-- Key schedule "A" as an index function. -/
def FZ_EXPANDED_KEY : Nat → Nat := fun i => FZ_LIST.getD i 0

/-- Key schedule "B" as an index function. -/
def CAE_EXPANDED_KEY : Nat → Nat := fun i => CAE_LIST.getD i 0

/-- Main loop of `decrypt` (`crypto.rs` lines 74-81): `reg` is the
16-byte CFB shift register; for each byte the keystream block is
computed from the current register, the register is shifted by one and
the *input* (ciphertext) byte appended, and the output byte is the
input byte XOR the low 8 bits of the first keystream word. -/
def decryptAux (key : Nat → Nat) : List Nat → List Nat → List Nat
  | _, [] => []
  | reg, b :: rest =>
    let a := (rc6_encrypt_block reg key).1
    (b ^^^ a % 256) :: decryptAux key (reg.drop 1 ++ [b]) rest

/-- The all-zero initial CFB shift register. -/
def cfbReg0 : List Nat := List.replicate 16 0

/-- `decrypt` (`crypto.rs` lines 70-84). -/
def decrypt (key : Nat → Nat) (data : List Nat) : List Nat :=
  decryptAux key cfbReg0 data

/-- Main loop of `encrypt` (`crypto.rs` lines 91-98): as `decryptAux`,
but the XOR happens first and the produced ciphertext byte is fed back
into the register. -/
def encryptAux (key : Nat → Nat) : List Nat → List Nat → List Nat
  | _, [] => []
  | reg, b :: rest =>
    let a := (rc6_encrypt_block reg key).1
    let c := b ^^^ a % 256
    c :: encryptAux key (reg.drop 1 ++ [c]) rest

/-- `encrypt` (`crypto.rs` lines 87-101). -/
def encrypt (key : Nat → Nat) (data : List Nat) : List Nat :=
  encryptAux key cfbReg0 data

lemma encryptAux_length (key : Nat → Nat) (data : List Nat) :
    ∀ reg, (encryptAux key reg data).length = data.length := by
  induction data with
  | nil => intro reg; rfl
  | cons b rest ih => intro reg; simp [encryptAux, ih]

lemma decryptAux_length (key : Nat → Nat) (data : List Nat) :
    ∀ reg, (decryptAux key reg data).length = data.length := by
  induction data with
  | nil => intro reg; rfl
  | cons b rest ih => intro reg; simp [decryptAux, ih]

lemma encrypt_length (key : Nat → Nat) (data : List Nat) :
    (encrypt key data).length = data.length := encryptAux_length key data _

lemma decrypt_length (key : Nat → Nat) (data : List Nat) :
    (decrypt key data).length = data.length := decryptAux_length key data _

/-- Decryption inverts encryption from any common register state: both
directions feed the ciphertext byte into the register, so the register
sequences coincide and the XORs cancel. -/
lemma decryptAux_encryptAux (key : Nat → Nat) (data : List Nat) :
    ∀ reg, decryptAux key reg (encryptAux key reg data) = data := by
  induction data with
  | nil => intro reg; rfl
  | cons b rest ih =>
    intro reg
    simp only [encryptAux, decryptAux, List.cons.injEq]
    exact ⟨by rw [Nat.xor_assoc, Nat.xor_self, Nat.xor_zero],
      ih (reg.drop 1 ++ [b ^^^ (rc6_encrypt_block reg key).1 % 256])⟩

/-- The cipher is an involution: `decrypt ∘ encrypt = id`. -/
lemma decrypt_encrypt (key : Nat → Nat) (data : List Nat) :
    decrypt key (encrypt key data) = data :=
  decryptAux_encryptAux key data cfbReg0

/-- CFB-8 feedback characterization: decryption of `xs ++ ys` proceeds
on `ys` with register `(reg ++ xs).drop xs.length`, i.e. the register
after consuming `xs` consists of the 16 most recent input (ciphertext)
bytes of `reg ++ xs`. Needs `reg ≠ []` (the register never shrinks). -/
lemma decryptAux_append (key : Nat → Nat) (xs : List Nat) :
    ∀ (reg : List Nat), reg ≠ [] → ∀ ys,
      decryptAux key reg (xs ++ ys) =
        decryptAux key reg xs ++ decryptAux key ((reg ++ xs).drop xs.length) ys := by
  induction xs with
  | nil => intro reg _ ys; simp [decryptAux]
  | cons x xs' ih =>
    intro reg hreg ys
    have hreg' : reg.drop 1 ++ [x] ≠ [] := by simp
    have hdrop : ((reg.drop 1 ++ [x]) ++ xs').drop xs'.length =
        (reg ++ x :: xs').drop (x :: xs').length := by
      cases reg with
      | nil => exact absurd rfl hreg
      | cons r rs => simp [List.append_assoc]
    calc decryptAux key reg ((x :: xs') ++ ys)
        = (x ^^^ (rc6_encrypt_block reg key).1 % 256) ::
            decryptAux key (reg.drop 1 ++ [x]) (xs' ++ ys) := rfl
      _ = (x ^^^ (rc6_encrypt_block reg key).1 % 256) ::
            (decryptAux key (reg.drop 1 ++ [x]) xs' ++
             decryptAux key (((reg.drop 1 ++ [x]) ++ xs').drop xs'.length) ys) := by
          rw [ih _ hreg' ys]
      _ = decryptAux key reg (x :: xs') ++
            decryptAux key ((reg ++ x :: xs').drop (x :: xs').length) ys := by
          rw [hdrop]; rfl

/-! ## Container decoder (`decoder.rs`) -/

/-- Error values produced by a decode trial: the "Invalid zlib header"
error, the "Decompressed size mismatch" error, and a zlib inflation
failure from `flate2`. -/
inductive DecodeErr where
  | invalidMagic : DecodeErr
  | sizeMismatch : DecodeErr
  | zlibError : DecodeErr
  deriving DecidableEq

/-- Result of running a piece of Rust code: `ok`, a returned `Err`
value, or a panic (which unwinds and is NOT an `Err`). -/
inductive Res (ε α : Type) where
  | ok (a : α) : Res ε α
  | err (e : ε) : Res ε α
  | panicked : Res ε α
  deriving DecidableEq

/-- Sequencing (`?` / method chains): errors and panics propagate. -/
def Res.bind {ε α β : Type} : Res ε α → (α → Res ε β) → Res ε β
  | .ok a, f => f a
  | .err e, _ => .err e
  | .panicked, _ => .panicked

/-- `Result::or_else`: an `Err` value is recovered by the fallback,
a panic propagates. -/
def Res.orTry {ε α : Type} : Res ε α → (Unit → Res ε α) → Res ε α
  | .ok a, _ => .ok a
  | .err _, f => f ()
  | .panicked, _ => .panicked

/-- `&l[i]`: indexing a slice panics when out of range. -/
def idxChk {ε : Type} (l : List Nat) (i : Nat) : Res ε Nat :=
  match l.get? i with
  | some v => .ok v
  | none => .panicked

/-- `&l[a..b]`: slicing panics when `a > b` or `b > l.length`. -/
def sliceChk {ε : Type} (l : List Nat) (a b : Nat) : Res ε (List Nat) :=
  if a ≤ b ∧ b ≤ l.length then .ok ((l.drop a).take (b - a)) else .panicked

/-- `usize` subtraction `a - b`: underflow panics (in release builds it
wraps, and the huge wrapped value makes the subsequent slice access
panic instead, so the observable outcome is a panic either way). -/
def subChk {ε : Type} (a b : Nat) : Res ε Nat :=
  if b ≤ a then .ok (a - b) else .panicked

/-- `decompress` (`decoder.rs` lines 93-101): inflate the zlib stream
and require exactly `capacity` output bytes. `infl` is the external
zlib inflater oracle. -/
def decompress (infl : List Nat → Option (List Nat)) (capacity : Nat) (data : List Nat) :
    Res DecodeErr (List Nat) :=
  match infl data with
  | none => .err .zlibError
  | some buf => if buf.length = capacity then .ok buf else .err .sizeMismatch

/-- The `match key` at the top of `try_process`: the buffer a trial
works on, decrypted when a key is given. -/
def decryptedOf (key : Option (Nat → Nat)) (data : List Nat) : List Nat :=
  match key with
  | some k => decrypt k data
  | none => data

/-- `try_process` (`decoder.rs` lines 117-165), in the exact order of
the source: magic-byte check at index 4, trailing-pointer read,
content-length read and content decompression, backward-pointer slot
read, absolute-pointer target reads, description decompression. -/
def try_process (infl : List Nat → Option (List Nat)) (data : List Nat)
    (key : Option (Nat → Nat)) : Res DecodeErr (List Nat × List Nat) :=
  let decrypted := decryptedOf key data
  Res.bind (idxChk decrypted 4) fun b4 =>
  if b4 ≠ 0x78 then .err .invalidMagic else
  Res.bind (subChk decrypted.length 4) fun tail_start =>
  Res.bind (sliceChk decrypted tail_start decrypted.length) fun tail4 =>
  let pointer_offset_maybe := readLE32 tail4 0
  Res.bind (sliceChk decrypted 0 4) fun head4 =>
  let content_len := readLE32 head4 0
  Res.bind (decompress infl content_len (decrypted.drop 4)) fun content =>
  Res.bind (subChk decrypted.length (pointer_offset_maybe + 4)) fun slot_start =>
  Res.bind (sliceChk decrypted slot_start (decrypted.length - pointer_offset_maybe)) fun slot =>
  let pointer_maybe := readLE32 slot 0
  Res.bind (sliceChk decrypted pointer_maybe (pointer_maybe + 4)) fun dlen4 =>
  let description_len := readLE32 dlen4 0
  Res.bind (sliceChk decrypted (pointer_maybe + 4) (decrypted.length - 4)) fun dstream =>
  Res.bind (decompress infl description_len dstream) fun description =>
  .ok (content, description)

/-- The trial chain of `DecodedPcbRepairFile::from_filename`
(`decoder.rs` lines 167-169): no key, then key "A" (FZ), then
key "B" (CAE). -/
def decode (infl : List Nat → Option (List Nat)) (data : List Nat) :
    Res DecodeErr (List Nat × List Nat) :=
  (try_process infl data none).orTry fun _ =>
  (try_process infl data (some FZ_EXPANDED_KEY)).orTry fun _ =>
  try_process infl data (some CAE_EXPANDED_KEY)

lemma decompress_ok_length {infl capacity data buf}
    (h : decompress infl capacity data = .ok buf) : buf.length = capacity := by
  unfold decompress at h
  cases hi : infl data with
  | none => simp [hi] at h
  | some b =>
    simp only [hi] at h
    by_cases hl : b.length = capacity
    · simp only [if_pos hl] at h
      cases h
      exact hl
    · simp [if_neg hl] at h

/-- A successful trial implies the buffer reaches past index 4. -/
lemma try_process_ok_length {infl data key r}
    (h : try_process infl data key = .ok r) : 4 < (decryptedOf key data).length := by
  by_contra hlen
  have hnone : (decryptedOf key data).get? 4 = none :=
    List.get?_eq_none.mpr (by omega)
  simp only [try_process, idxChk, hnone, Res.bind] at h
  exact Res.noConfusion h

lemma bind_ok {ε α β : Type} {x : Res ε α} {f : α → Res ε β} {b : β}
    (h : x.bind f = .ok b) : ∃ a, x = .ok a ∧ f a = .ok b := by
  cases x with
  | ok a => exact ⟨a, rfl, h⟩
  | err e => exact absurd h (by simp [Res.bind])
  | panicked => exact absurd h (by simp [Res.bind])

lemma idxChk_ok {ε : Type} {l : List Nat} {i v : Nat}
    (h : (idxChk l i : Res ε Nat) = .ok v) : l.get? i = some v := by
  unfold idxChk at h
  cases hg : l.get? i <;> rw [hg] at h <;> simp_all

lemma subChk_ok {ε : Type} {a b v : Nat}
    (h : (subChk a b : Res ε Nat) = .ok v) : b ≤ a ∧ v = a - b := by
  unfold subChk at h
  split at h <;> simp_all

lemma sliceChk_ok {ε : Type} {l : List Nat} {a b : Nat} {v : List Nat}
    (h : (sliceChk l a b : Res ε (List Nat)) = .ok v) :
    a ≤ b ∧ b ≤ l.length ∧ v = (l.drop a).take (b - a) := by
  unfold sliceChk at h
  split at h <;> simp_all

lemma readLE32_take4 (l : List Nat) (h : 4 ≤ l.length) :
    readLE32 (l.take 4) 0 = readLE32 l 0 := by
  match l with
  | a :: b :: c :: d :: rest => rfl
  | [] => simp at h
  | [_] => simp at h
  | [_, _] => simp at h
  | [_, _, _] => simp at h

/-- A trial that returns `Ok` returns a content whose length is exactly
the declared little-endian content length at the start of the
(decrypted) buffer, and a description whose length is exactly the
declared description length read at the absolute pointer: nothing
truncated or padded. -/
lemma try_process_ok_lengths {infl : List Nat → Option (List Nat)} {data : List Nat}
    {key : Option (Nat → Nat)} {c d : List Nat}
    (h : try_process infl data key = .ok (c, d)) :
    c.length = readLE32 (decryptedOf key data) 0 ∧
    ∃ pm, d.length = readLE32 ((decryptedOf key data).drop pm) 0 := by
  simp only [try_process] at h
  obtain ⟨b4, h1, h⟩ := bind_ok h
  have hlen : 4 < (decryptedOf key data).length := by
    obtain ⟨hw, -⟩ := List.get?_eq_some.mp (idxChk_ok h1)
    exact hw
  rcases Decidable.em (b4 = 0x78) with hb | hb
  · rw [if_neg (by simp [hb])] at h
    obtain ⟨ts, h2, h⟩ := bind_ok h
    obtain ⟨tail4, h3, h⟩ := bind_ok h
    obtain ⟨head4, h4, h⟩ := bind_ok h
    obtain ⟨content, h5, h⟩ := bind_ok h
    obtain ⟨ss, h6, h⟩ := bind_ok h
    obtain ⟨slot, h7, h⟩ := bind_ok h
    obtain ⟨dlen4, h8, h⟩ := bind_ok h
    obtain ⟨dstream, h9, h⟩ := bind_ok h
    obtain ⟨description, h10, h⟩ := bind_ok h
    have hcd : content = c ∧ description = d := by
      injection h with h'
      exact ⟨congrArg Prod.fst h', congrArg Prod.snd h'⟩
    obtain ⟨rfl, rfl⟩ := hcd
    obtain ⟨-, -, hhead4⟩ := sliceChk_ok h4
    constructor
    · rw [decompress_ok_length h5, hhead4]
      have h40 : ((decryptedOf key data).drop 0).take (4 - 0) =
          (decryptedOf key data).take 4 := by simp
      rw [h40]
      exact readLE32_take4 _ (by omega)
    · obtain ⟨-, hle8, hdlen4⟩ := sliceChk_ok h8
      refine ⟨readLE32 slot 0, ?_⟩
      have h44 : readLE32 slot 0 + 4 - readLE32 slot 0 = 4 := by omega
      rw [decompress_ok_length h10, hdlen4, h44]
      refine readLE32_take4 _ ?_
      rw [List.length_drop]
      omega
  · rw [if_pos (by simpa using hb)] at h
    exact Res.noConfusion h

/-- A trial whose (decrypted) buffer has a byte other than `0x78` at
index 4 fails with the "Invalid zlib header" error. -/
lemma try_process_magic_fail {infl : List Nat → Option (List Nat)} {data : List Nat}
    {key : Option (Nat → Nat)} {b : Nat}
    (hg : (decryptedOf key data).get? 4 = some b) (hb : b ≠ 0x78) :
    try_process infl data key = .err .invalidMagic := by
  have hg' : (decryptedOf key data)[4]? = some b := by
    rw [← List.get?_eq_getElem?]
    exact hg
  simp [try_process, idxChk, Res.bind, hb, hg']

/-! ## Content parser (`parser.rs`) -/

/-- The section state of the content parser (`enum ParserState`). -/
inductive ParserState where
  | unknown : ParserState
  | symbol : ParserState
  | pin : ParserState
  | via : ParserState
  | testvia : ParserState
  | graphicData : ParserState
  | classedGraphicData : ParserState
  deriving DecidableEq

/-- The unit system of the file (`enum Units`). -/
inductive Units where
  | mils : Units
  | millimeters : Units
  deriving DecidableEq

/-- `struct Symbol` of `parser.rs`. -/
structure Symbol where
  refdes : String
  comp_insertion_code : Nat
  sym_name : String
  sym_mirror : Bool
  sym_rotate : Nat
  deriving DecidableEq

/-- `struct Pin` of `parser.rs`. Coordinates are the exact decimal
values (`rust_decimal::Decimal`, modelled by `ℚ`). -/
structure Pin where
  net_name : String
  refdes : String
  pin_number : String
  pin_name : String
  pin_x : ℚ
  pin_y : ℚ
  test_point : String
  radius : ℚ
  deriving DecidableEq

/-- `struct TestVia` of `parser.rs`. -/
structure TestVia where
  testvia : String
  net_name : String
  refdes : String
  pin_number : String
  pin_name : String
  via_x : ℚ
  via_y : ℚ
  test_point : String
  radius : ℚ
  deriving DecidableEq

/-- `struct GraphicData` of `parser.rs` (the 9-element array is a
list of 9 strings). -/
structure GraphicData where
  graphic_data_name : String
  graphic_data_number : Nat
  record_tag : String
  graphic_data : List String
  subclass : String
  sym_name : String
  refdes : String
  deriving DecidableEq

/-- `struct ClassedGraphicData` of `parser.rs` (`class` is a Lean
keyword, renamed `cls`). -/
structure ClassedGraphicData where
  cls : String
  subclass : String
  graphic_data_name : String
  graphic_data_number : Nat
  record_tag : String
  graphic_data : List String
  net_name : String
  deriving DecidableEq

/-- `struct Content` of `parser.rs`. -/
structure Content where
  units : Units
  symbols : List Symbol
  pins : List Pin
  testvias : List TestVia
  graphic_data : List GraphicData
  classed_graphic_data : List ClassedGraphicData
  deriving DecidableEq

/-- Parse-error kinds (payloads of the boxed errors of `parser.rs`). -/
inductive ParseErr where
  | badInt : ParseErr
  | badDecimal : ParseErr
  deriving DecidableEq

/-- `&record[i]`: indexing a csv `ByteRecord` panics when the field
index is out of range. -/
def fieldChk {ε : Type} (r : List String) (i : Nat) : Res ε String :=
  match r.get? i with
  | some s => .ok s
  | none => .panicked

/-- Numeric value of a digit string. -/
def digitsVal (cs : List Char) : Nat :=
  cs.foldl (fun a c => 10 * a + (c.toNat - 48)) 0

/-- Strict base-10 digit-run parse (`none` when empty or non-digit). -/
def parseDigits (cs : List Char) : Option Nat :=
  if cs ≠ [] ∧ cs.all Char.isDigit then some (digitsVal cs) else none

/-- `str::parse::<u64>`: optional `+`, digits, range `< 2^64`. -/
def parseU64 (s : String) : Res ParseErr Nat :=
  let cs := match s.data with
    | '+' :: r => r
    | r => r
  match parseDigits cs with
  | some n => if n < 2 ^ 64 then .ok n else .err .badInt
  | none => .err .badInt

/-- `str::parse::<u16>`: optional `+`, digits, range `< 2^16`. -/
def parseU16 (s : String) : Res ParseErr Nat :=
  let cs := match s.data with
    | '+' :: r => r
    | r => r
  match parseDigits cs with
  | some n => if n < 2 ^ 16 then .ok n else .err .badInt
  | none => .err .badInt

/-- Core of `Decimal::from_str` on sign-stripped text: digits with at
most one point, at least one digit overall. (The external
`rust_decimal` parser; this models its grammar on the plain decimal
strings the format uses.) -/
def parseDecCore (cs : List Char) : Res ParseErr ℚ :=
  match cs.splitOn '.' with
  | [ip] =>
    if ip ≠ [] ∧ ip.all Char.isDigit then .ok (digitsVal ip) else .err .badDecimal
  | [ip, fp] =>
    if (ip ≠ [] ∨ fp ≠ []) ∧ ip.all Char.isDigit ∧ fp.all Char.isDigit then
      .ok ((digitsVal ip : ℚ) + (digitsVal fp : ℚ) / (10 : ℚ) ^ fp.length)
    else .err .badDecimal
  | _ => .err .badDecimal

/-- `parse_decimal` (`parser.rs` lines 459-462): replace `,` by `.`
then `Decimal::from_str`. -/
def parse_decimal (s : String) : Res ParseErr ℚ :=
  let cs := s.data.map fun c => if c = ',' then '.' else c
  match cs with
  | '-' :: r => Res.bind (parseDecCore r) fun q => .ok (-q)
  | '+' :: r => parseDecCore r
  | r => parseDecCore r

/-- Accumulator of the `Content::from_bytes` loop: the parser state,
the current unit, and the record lists built so far. -/
structure ContentAcc where
  state : ParserState
  units : Units
  symbols : List Symbol
  pins : List Pin
  testvias : List TestVia
  graphic_data : List GraphicData
  classed_graphic_data : List ClassedGraphicData
  deriving DecidableEq

/-- One iteration of the `Content::from_bytes` loop (`parser.rs`
lines 205-325) on one csv record (list of `!`-separated fields). -/
def procRecord (acc : ContentAcc) (record : List String) : Res ParseErr ContentAcc :=
  if record = [] then .ok acc
  else
    Res.bind (fieldChk record 0) fun first =>
    if first = "A" then
      Res.bind (fieldChk record 1) fun name =>
      if name = "UNIT" then
        Res.bind (fieldChk record 2) fun u =>
        if u = "mils" then .ok { acc with units := .mils }
        else .ok { acc with units := .millimeters }
      else if name = "REFDES" then .ok { acc with state := .symbol }
      else if name = "NET_NAME" then .ok { acc with state := .pin }
      else if name = "VIAID" then .ok { acc with state := .via }
      else if name = "TESTVIA" then .ok { acc with state := .testvia }
      else if name = "GRAPHIC_DATA_NAME" then .ok { acc with state := .graphicData }
      else if name = "CLASS" then .ok { acc with state := .classedGraphicData }
      else if name = "LOGOInfo" then .ok acc
      else if name = "UnDrawSym" then .ok acc
      else .ok { acc with state := .unknown }
    else if first = "S" then
      match acc.state with
      | .symbol =>
        Res.bind (fieldChk record 1) fun refdes =>
        Res.bind (Res.bind (fieldChk record 2) parseU64) fun code =>
        Res.bind (fieldChk record 3) fun sym_name =>
        Res.bind (fieldChk record 4) fun mirror =>
        Res.bind (Res.bind (fieldChk record 5) parseU16) fun rot =>
        .ok { acc with symbols :=
          acc.symbols ++ [⟨refdes, code, sym_name, mirror = "YES", rot⟩] }
      | .pin =>
        Res.bind (fieldChk record 1) fun net_name =>
        Res.bind (fieldChk record 2) fun refdes =>
        Res.bind (fieldChk record 3) fun pin_number =>
        Res.bind (fieldChk record 4) fun pin_name =>
        Res.bind (Res.bind (fieldChk record 5) parse_decimal) fun pin_x =>
        Res.bind (Res.bind (fieldChk record 6) parse_decimal) fun pin_y =>
        Res.bind (fieldChk record 7) fun test_point =>
        Res.bind (Res.bind (fieldChk record 8) parse_decimal) fun radius =>
        .ok { acc with pins :=
          acc.pins ++ [⟨net_name, refdes, pin_number, pin_name, pin_x, pin_y, test_point, radius⟩] }
      | .testvia =>
        Res.bind (fieldChk record 1) fun testvia =>
        Res.bind (fieldChk record 2) fun net_name =>
        Res.bind (fieldChk record 3) fun refdes =>
        Res.bind (fieldChk record 4) fun pin_number =>
        Res.bind (fieldChk record 5) fun pin_name =>
        Res.bind (Res.bind (fieldChk record 6) parse_decimal) fun via_x =>
        Res.bind (Res.bind (fieldChk record 7) parse_decimal) fun via_y =>
        Res.bind (fieldChk record 8) fun test_point =>
        Res.bind (Res.bind (fieldChk record 9) parse_decimal) fun radius =>
        .ok { acc with testvias :=
          acc.testvias ++ [⟨testvia, net_name, refdes, pin_number, pin_name, via_x, via_y,
            test_point, radius⟩] }
      | .graphicData =>
        Res.bind (fieldChk record 1) fun gname =>
        Res.bind (Res.bind (fieldChk record 2) parseU64) fun gnum =>
        Res.bind (fieldChk record 3) fun record_tag =>
        Res.bind (fieldChk record 4) fun g0 =>
        Res.bind (fieldChk record 5) fun g1 =>
        Res.bind (fieldChk record 6) fun g2 =>
        Res.bind (fieldChk record 7) fun g3 =>
        Res.bind (fieldChk record 8) fun g4 =>
        Res.bind (fieldChk record 9) fun g5 =>
        Res.bind (fieldChk record 10) fun g6 =>
        Res.bind (fieldChk record 11) fun g7 =>
        Res.bind (fieldChk record 12) fun g8 =>
        Res.bind (fieldChk record 13) fun subclass =>
        Res.bind (fieldChk record 14) fun sym_name =>
        Res.bind (fieldChk record 15) fun refdes =>
        .ok { acc with graphic_data :=
          acc.graphic_data ++ [⟨gname, gnum, record_tag,
            [g0, g1, g2, g3, g4, g5, g6, g7, g8], subclass, sym_name, refdes⟩] }
      | .classedGraphicData =>
        Res.bind (fieldChk record 1) fun cls =>
        Res.bind (fieldChk record 2) fun subclass =>
        Res.bind (fieldChk record 3) fun gname =>
        Res.bind (Res.bind (fieldChk record 4) parseU64) fun gnum =>
        Res.bind (fieldChk record 5) fun record_tag =>
        Res.bind (fieldChk record 6) fun g0 =>
        Res.bind (fieldChk record 7) fun g1 =>
        Res.bind (fieldChk record 8) fun g2 =>
        Res.bind (fieldChk record 9) fun g3 =>
        Res.bind (fieldChk record 10) fun g4 =>
        Res.bind (fieldChk record 11) fun g5 =>
        Res.bind (fieldChk record 12) fun g6 =>
        Res.bind (fieldChk record 13) fun g7 =>
        Res.bind (fieldChk record 14) fun g8 =>
        Res.bind (fieldChk record 15) fun net_name =>
        .ok { acc with classed_graphic_data :=
          acc.classed_graphic_data ++ [⟨cls, subclass, gname, gnum, record_tag,
            [g0, g1, g2, g3, g4, g5, g6, g7, g8], net_name⟩] }
      | _ => .ok acc
    else .ok acc

/-- The loop of `Content::from_bytes` over all records. -/
def processAll (acc : ContentAcc) : List (List String) → Res ParseErr ContentAcc
  | [] => .ok acc
  | r :: rest => Res.bind (procRecord acc r) fun acc' => processAll acc' rest

/-- Initial accumulator: `state = Unknown`, `units = Mils`, all lists
empty. -/
def initAcc : ContentAcc := ⟨.unknown, .mils, [], [], [], [], []⟩

/-- `Content::from_bytes` at the record level: run the loop over the
records produced by the (external) csv reader and assemble `Content`. -/
def Content.from_records (records : List (List String)) : Res ParseErr Content :=
  Res.bind (processAll initAcc records) fun acc =>
  .ok ⟨acc.units, acc.symbols, acc.pins, acc.testvias, acc.graphic_data,
    acc.classed_graphic_data⟩

/-! ## Semantic interpreter (`interpreter.rs`) -/

/-- `interpreter::Pin`: an interpreted pin, coordinates in mm. -/
structure IPin where
  name : String
  number : String
  x_mm : ℚ
  y_mm : ℚ
  radius_mm : ℚ
  deriving DecidableEq

/-- `struct FootprintInfo`. -/
structure FootprintInfo where
  pins : List IPin
  deriving DecidableEq

/-- Interpreter error: the `usize → i64` conversion of a group's pin
count can fail (`pins.len().try_into()?`). -/
inductive InterpErr where
  | convertError : InterpErr
  deriving DecidableEq

/-- `Decimal::new(254, 4)`, the exact conversion constant 0.0254 mm
per mil. -/
def mm_per_mil : ℚ := 254 / 10000

/-- The per-pin part of `InterpretedPcbRepairFile::from_parsed`
(`interpreter.rs` lines 119-163): pin-number fixup, display-name
choice, unit conversion; returns the footprint name (the refdes) the
pin is grouped under, and the interpreted pin. -/
def interpPin (units : Units) (p : Pin) : String × IPin :=
  let pin_number :=
    if p.pin_number = "" then p.pin_name
    else if p.pin_number = "0" then p.pin_name
    else p.pin_number
  let pin_name := if pin_number ≠ p.pin_name then p.pin_name else p.net_name
  let x := match units with
    | .mils => p.pin_x * mm_per_mil
    | .millimeters => p.pin_x
  let y := match units with
    | .mils => p.pin_y * mm_per_mil
    | .millimeters => p.pin_y
  let radius := match units with
    | .mils => p.radius * mm_per_mil
    | .millimeters => p.radius
  (p.refdes, ⟨pin_name, pin_number, x, y, radius⟩)

/-- `footprint_pins.entry(name).or_insert_with(Vec::new).push(pin)`
on an association-list model of the `HashMap` (keys in first-insertion
order; the map's graph is what matters). -/
def upsertPin (m : List (String × List IPin)) (k : String) (v : IPin) :
    List (String × List IPin) :=
  match m with
  | [] => [(k, [v])]
  | (k', vs) :: rest =>
    if k' = k then (k', vs ++ [v]) :: rest else (k', vs) :: upsertPin rest k v

/-- The grouping loop of `from_parsed` (`interpreter.rs` lines
119-163). -/
def groupPins (units : Units) (pins : List Pin) : List (String × List IPin) :=
  pins.foldl (fun m p =>
    let kv := interpPin units p
    upsertPin m kv.1 kv.2) []

/-- The arithmetic mean of a list of rationals. -/
def avgOf (l : List ℚ) : ℚ := l.sum / l.length

/-- The per-group centering of `from_parsed` (`interpreter.rs` lines
173-186): sum x and y, convert the pin count to `i64` (error when it
does not fit), divide (a `Decimal` division by zero would panic), and
subtract the averages from every pin. -/
def centerGroup (pins : List IPin) : Res InterpErr (List IPin) :=
  let total_x : ℚ := (pins.map (·.x_mm)).sum
  let total_y : ℚ := (pins.map (·.y_mm)).sum
  if 2 ^ 63 ≤ pins.length then .err .convertError
  else if pins.length = 0 then .panicked
  else
    let pin_count : ℚ := pins.length
    let avg_x := total_x / pin_count
    let avg_y := total_y / pin_count
    .ok (pins.map fun p => ⟨p.name, p.number, p.x_mm - avg_x, p.y_mm - avg_y, p.radius_mm⟩)

/-- The second loop of `from_parsed` (`interpreter.rs` lines 168-194):
skip empty groups, center each remaining group, collect the
footprints. -/
def centerAll : List (String × List IPin) → Res InterpErr (List (String × FootprintInfo))
  | [] => .ok []
  | (name, pins) :: rest =>
    if pins = [] then centerAll rest
    else
      Res.bind (centerGroup pins) fun cp =>
      Res.bind (centerAll rest) fun r =>
      .ok ((name, ⟨cp⟩) :: r)

/-- `InterpretedPcbRepairFile::from_parsed` (`interpreter.rs` lines
112-197), as a function of the parsed content; the result is the
graph of the `footprints` map. -/
def from_parsed (c : Content) : Res InterpErr (List (String × FootprintInfo)) :=
  centerAll (groupPins c.units c.pins)

/-- A group of pins translated by `(ax, ay)`. -/
def centeredBy (g : List IPin) (ax ay : ℚ) : List IPin :=
  g.map fun p => ⟨p.name, p.number, p.x_mm - ax, p.y_mm - ay, p.radius_mm⟩

lemma upsertPin_nonempty {m : List (String × List IPin)} {k : String} {v : IPin}
    (h : ∀ pr ∈ m, pr.2 ≠ []) : ∀ pr ∈ upsertPin m k v, pr.2 ≠ [] := by
  induction m with
  | nil =>
    intro pr hpr
    simp only [upsertPin, List.mem_singleton] at hpr
    simp [hpr]
  | cons hd tl ih =>
    intro pr hpr
    obtain ⟨k', vs⟩ := hd
    simp only [upsertPin] at hpr
    split at hpr
    · rcases List.mem_cons.mp hpr with rfl | hm
      · simp
      · exact h _ (List.mem_cons_of_mem _ hm)
    · rcases List.mem_cons.mp hpr with rfl | hm
      · exact h _ (List.mem_cons_self _ _)
      · exact ih (fun pr' hpr' => h pr' (List.mem_cons_of_mem _ hpr')) pr hm

lemma foldl_upsert_nonempty (units : Units) (pins : List Pin) :
    ∀ (m0 : List (String × List IPin)), (∀ pr ∈ m0, pr.2 ≠ []) →
      ∀ pr ∈ pins.foldl (fun m p =>
          let kv := interpPin units p
          upsertPin m kv.1 kv.2) m0, pr.2 ≠ [] := by
  induction pins with
  | nil => intro m0 h0; simpa using h0
  | cons p rest ih =>
    intro m0 h0
    exact ih _ (upsertPin_nonempty h0)

/-- Every group the grouping loop builds holds at least one pin. -/
lemma groupPins_nonempty (units : Units) (pins : List Pin) :
    ∀ pr ∈ groupPins units pins, pr.2 ≠ [] :=
  foldl_upsert_nonempty units pins [] (by simp)

lemma centerGroup_ok_inv {g : List IPin} {cps : List IPin}
    (h : centerGroup g = .ok cps) :
    g ≠ [] ∧ cps = centeredBy g (avgOf (g.map (·.x_mm))) (avgOf (g.map (·.y_mm))) := by
  unfold centerGroup at h
  split at h
  · exact absurd h (by simp)
  · split at h
    · exact absurd h (by simp)
    · rename_i hsz hz
      refine ⟨fun hnil => hz (by simp [hnil]), ?_⟩
      cases h
      simp [centeredBy, avgOf]

lemma centerGroup_eval {pins : List IPin} (hne : pins ≠ []) (hlt : pins.length < 2 ^ 63) :
    centerGroup pins =
      .ok (centeredBy pins (avgOf (pins.map (·.x_mm))) (avgOf (pins.map (·.y_mm)))) := by
  unfold centerGroup
  rw [if_neg (by omega), if_neg (fun h => hne (List.length_eq_zero.mp h))]
  simp [centeredBy, avgOf]

lemma centerAll_ok_mem {gs : List (String × List IPin)} {fps : List (String × FootprintInfo)}
    (h : centerAll gs = .ok fps) :
    ∀ x ∈ fps, ∃ g, (x.1, g) ∈ gs ∧ centerGroup g = .ok x.2.pins := by
  induction gs generalizing fps with
  | nil =>
    intro x hx
    simp only [centerAll] at h
    cases h
    simp at hx
  | cons hd tl ih =>
    obtain ⟨name, pins⟩ := hd
    intro x hx
    simp only [centerAll] at h
    split at h
    · obtain ⟨g, hg, hcg⟩ := ih h x hx
      exact ⟨g, List.mem_cons_of_mem _ hg, hcg⟩
    · obtain ⟨cp, h1, h⟩ := bind_ok h
      obtain ⟨r, h2, h⟩ := bind_ok h
      cases h
      rcases List.mem_cons.mp hx with rfl | hm
      · exact ⟨pins, List.mem_cons_self _ _, h1⟩
      · obtain ⟨g, hg, hcg⟩ := ih h2 x hm
        exact ⟨g, List.mem_cons_of_mem _ hg, hcg⟩

lemma centerAll_total {gs : List (String × List IPin)}
    (hne : ∀ pr ∈ gs, pr.2 ≠ []) (hsz : ∀ pr ∈ gs, pr.2.length ≤ 2 ^ 63 - 1) :
    ∃ fps, centerAll gs = .ok fps := by
  induction gs with
  | nil => exact ⟨[], rfl⟩
  | cons hd tl ih =>
    obtain ⟨name, pins⟩ := hd
    obtain ⟨fps, hfps⟩ := ih (fun pr h => hne pr (List.mem_cons_of_mem _ h))
      (fun pr h => hsz pr (List.mem_cons_of_mem _ h))
    have hpne : pins ≠ [] := hne (name, pins) (List.mem_cons_self _ _)
    have hlt : pins.length < 2 ^ 63 := by
      have := hsz (name, pins) (List.mem_cons_self _ _)
      simp only at this
      omega
    refine ⟨(name, ⟨centeredBy pins (avgOf (pins.map (·.x_mm))) (avgOf (pins.map (·.y_mm)))⟩)
      :: fps, ?_⟩
    simp only [centerAll, if_neg hpne]
    rw [centerGroup_eval hpne hlt, hfps]
    rfl

lemma sum_centeredBy_x (g : List IPin) (ax ay : ℚ) :
    ((centeredBy g ax ay).map (·.x_mm)).sum = (g.map (·.x_mm)).sum - g.length * ax := by
  induction g with
  | nil => simp [centeredBy]
  | cons p t ih =>
    simp only [centeredBy, List.map_cons, List.sum_cons, List.length_cons] at ih ⊢
    rw [ih]
    push_cast
    ring

lemma sum_centeredBy_y (g : List IPin) (ax ay : ℚ) :
    ((centeredBy g ax ay).map (·.y_mm)).sum = (g.map (·.y_mm)).sum - g.length * ay := by
  induction g with
  | nil => simp [centeredBy]
  | cons p t ih =>
    simp only [centeredBy, List.map_cons, List.sum_cons, List.length_cons] at ih ⊢
    rw [ih]
    push_cast
    ring

lemma avgOf_eq_zero {l : List ℚ} (h : l.sum = 0) : avgOf l = 0 := by
  unfold avgOf
  rw [h]
  exact zero_div _

lemma sum_centered_x_zero {g : List IPin} (hne : g ≠ []) (ay : ℚ) :
    ((centeredBy g (avgOf (g.map (·.x_mm))) ay).map (·.x_mm)).sum = 0 := by
  have hn : ((g.length : ℚ)) ≠ 0 :=
    Nat.cast_ne_zero.mpr (fun h => hne (List.length_eq_zero.mp h))
  rw [sum_centeredBy_x]
  unfold avgOf
  rw [List.length_map, mul_comm, div_mul_cancel₀ _ hn, sub_self]

lemma sum_centered_y_zero {g : List IPin} (hne : g ≠ []) (ax : ℚ) :
    ((centeredBy g ax (avgOf (g.map (·.y_mm)))).map (·.y_mm)).sum = 0 := by
  have hn : ((g.length : ℚ)) ≠ 0 :=
    Nat.cast_ne_zero.mpr (fun h => hne (List.length_eq_zero.mp h))
  rw [sum_centeredBy_y]
  unfold avgOf
  rw [List.length_map, mul_comm, div_mul_cancel₀ _ hn, sub_self]

/-! ## Claim theorems -/

/-- C1: the claim says the container decode never panics on any input
because every slice access is bounds-checked; in fact `try_process`
indexes `decrypted[4]` without any bounds check, so decoding a buffer
shorter than 5 bytes (here: the empty buffer, and a 4-byte buffer)
panics whatever the zlib inflater does. -/
theorem decoder_short_input_panics :
    ∀ infl : List Nat → Option (List Nat),
      decode infl [] = .panicked ∧ decode infl [0, 0, 0, 0] = .panicked :=
  fun _ => ⟨rfl, rfl⟩

/-- C2: the CFB-8 transform is an involution — for every 44-word key
schedule and every byte sequence, decrypting an encryption returns the
input exactly; and decryption of `xs ++ ys` continues on `ys` with
register `(cfbReg0 ++ xs).drop xs.length`, i.e. the feedback register
always holds the 16 most recent ciphertext (input) bytes, never the
decrypted plaintext. -/
theorem cipher_involution_and_feedback :
    (∀ (key : Nat → Nat) (data : List Nat), decrypt key (encrypt key data) = data) ∧
    (∀ (key : Nat → Nat) (xs ys : List Nat),
      decryptAux key cfbReg0 (xs ++ ys) =
        decryptAux key cfbReg0 xs ++ decryptAux key ((cfbReg0 ++ xs).drop xs.length) ys) :=
  ⟨decrypt_encrypt,
   fun key xs ys => decryptAux_append key xs cfbReg0 (by decide) ys⟩

/-- C5: the claim says an `S` data row with too few fields for the
current state yields a fatal `MalformedRecord`-style parse error and
no panic; in fact the loop indexes the csv record (`&record[2]`)
without a bounds check, so an `S` row with 2 fields in the Pin state
panics instead of returning an error. -/
theorem short_pin_row_panics :
    Content.from_records [["A", "NET_NAME"], ["S", "N1"]] = .panicked := by decide

/-- C7: `LOGOInfo` and `UnDrawSym` annotation rows leave the whole
parser accumulator (in particular the section state) unchanged; any
other unrecognized annotation name resets the state to `Unknown` and
changes nothing else; and a data row in the `Unknown` or `Via` state
is silently dropped — no record is appended and no error is raised. -/
theorem content_state_machine :
    (∀ (acc : ContentAcc) (rest : List String),
      procRecord acc ("A" :: "LOGOInfo" :: rest) = .ok acc ∧
      procRecord acc ("A" :: "UnDrawSym" :: rest) = .ok acc) ∧
    (∀ (acc : ContentAcc) (name : String) (rest : List String),
      name ∉ (["UNIT", "REFDES", "NET_NAME", "VIAID", "TESTVIA", "GRAPHIC_DATA_NAME",
        "CLASS", "LOGOInfo", "UnDrawSym"] : List String) →
      procRecord acc ("A" :: name :: rest) = .ok { acc with state := .unknown }) ∧
    (∀ (acc : ContentAcc) (rest : List String),
      acc.state = .unknown ∨ acc.state = .via →
      procRecord acc ("S" :: rest) = .ok acc) := by
  refine ⟨fun acc rest => ⟨?_, ?_⟩, fun acc name rest h => ?_, fun acc rest h => ?_⟩
  · simp [procRecord, fieldChk, Res.bind]
  · simp [procRecord, fieldChk, Res.bind]
  · simp only [List.mem_cons, List.not_mem_nil, or_false, not_or] at h
    obtain ⟨h1, h2, h3, h4, h5, h6, h7, h8, h9⟩ := h
    simp [procRecord, fieldChk, Res.bind, h1, h2, h3, h4, h5, h6, h7, h8, h9]
  · rcases h with h | h <;> simp [procRecord, fieldChk, Res.bind, h]

/-- Closed instances of `content_state_machine` with its hypotheses
discharged on concrete records. -/
theorem content_state_machine_witness :
    procRecord initAcc ["A", "LOGOInfo"] = .ok initAcc ∧
    procRecord initAcc ["A", "SOMETHING_ELSE"] = .ok { initAcc with state := .unknown } ∧
    procRecord initAcc ["S", "N1", "U1"] = .ok initAcc :=
  ⟨(content_state_machine.1 initAcc []).1,
   content_state_machine.2.1 initAcc "SOMETHING_ELSE" [] (by decide),
   content_state_machine.2.2 initAcc ["N1", "U1"] (Or.inl rfl)⟩

/-- C8: in Mils documents the interpreter multiplies x, y and radius
by exactly `254 / 10000` (the model of `Decimal::new(254, 4)`, i.e.
0.0254 mm per mil); in Millimeters documents all three pass through
unchanged; a Mils pin at x = 100 converts to exactly 2.54 mm. -/
theorem unit_conversion_exact :
    (∀ p : Pin,
      (interpPin .mils p).2.x_mm = p.pin_x * (254 / 10000 : ℚ) ∧
      (interpPin .mils p).2.y_mm = p.pin_y * (254 / 10000 : ℚ) ∧
      (interpPin .mils p).2.radius_mm = p.radius * (254 / 10000 : ℚ) ∧
      (interpPin .millimeters p).2.x_mm = p.pin_x ∧
      (interpPin .millimeters p).2.y_mm = p.pin_y ∧
      (interpPin .millimeters p).2.radius_mm = p.radius) ∧
    (interpPin .mils ⟨"N", "U1", "1", "A", 100, 0, "", 0⟩).2.x_mm = 254 / 100 := by
  refine ⟨fun p => ⟨rfl, rfl, rfl, rfl, rfl, rfl⟩, ?_⟩
  show (100 : ℚ) * mm_per_mil = 254 / 100
  unfold mm_per_mil
  norm_num

/-- C9: the effective pin number is the raw pin number unless that is
empty or the literal "0", in which case it is the raw pin name; the
display name is the raw pin name when it differs from the effective
number, otherwise the net name; a pin with number "" and name "GPIO3"
gets effective number "GPIO3" and display name from the net name. -/
theorem pin_number_fallback :
    (∀ (u : Units) (p : Pin),
      (interpPin u p).2.number =
        (if p.pin_number = "" ∨ p.pin_number = "0" then p.pin_name else p.pin_number) ∧
      (interpPin u p).2.name =
        (if (interpPin u p).2.number ≠ p.pin_name then p.pin_name else p.net_name)) ∧
    (interpPin .mils ⟨"NET1", "U1", "", "GPIO3", 0, 0, "", 0⟩).2.number = "GPIO3" ∧
    (interpPin .mils ⟨"NET1", "U1", "", "GPIO3", 0, 0, "", 0⟩).2.name = "NET1" := by
  refine ⟨fun u p => ⟨?_, rfl⟩, by decide, by decide⟩
  by_cases h1 : p.pin_number = "" <;> by_cases h2 : p.pin_number = "0" <;>
    simp [interpPin, h1, h2]

/-- C10: the interpreter's error branch is unreachable in practice —
whenever every per-refdes pin group has at most `2^63 - 1` pins, the
`usize → i64` conversion succeeds, every group is non-empty so the
centroid division is never by zero, and `from_parsed` returns `Ok`. -/
theorem interpret_total (c : Content)
    (h : ∀ pr ∈ groupPins c.units c.pins, pr.2.length ≤ 2 ^ 63 - 1) :
    ∃ fps, from_parsed c = .ok fps := by
  unfold from_parsed
  exact centerAll_total (groupPins_nonempty _ _) h

/-- A single-pin document on which `interpret_total`'s hypothesis is
discharged by computation. -/
def demo10 : Content := ⟨.mils, [], [⟨"N1", "U1", "1", "A", 0, 0, "", 0⟩], [], [], []⟩

/-- Closed instance of `interpret_total` at `demo10`. -/
theorem interpret_total_witness : ∃ fps, from_parsed demo10 = .ok fps :=
  interpret_total demo10 (by decide)

/-- Two trials whose buffers decrypt to the same bytes behave
identically: `try_process` reads its input only through
`decryptedOf`. -/
lemma try_process_congr {infl : List Nat → Option (List Nat)} {data1 data2 : List Nat}
    {key1 key2 : Option (Nat → Nat)}
    (h : decryptedOf key1 data1 = decryptedOf key2 data2) :
    try_process infl data1 key1 = try_process infl data2 key2 := by
  unfold try_process
  rw [h]

/-- C4: every footprint the interpreter produces comes from one
per-refdes pin group, translated by subtracting the arithmetic mean of
the group's x and y coordinates, and the arithmetic mean of the
centered coordinates is exactly (0, 0). -/
theorem footprint_centering (c : Content) (fps : List (String × FootprintInfo))
    (hok : from_parsed c = .ok fps) (nfp : String × FootprintInfo) (hmem : nfp ∈ fps) :
    ∃ g, (nfp.1, g) ∈ groupPins c.units c.pins ∧ g ≠ [] ∧
      nfp.2.pins = centeredBy g (avgOf (g.map (·.x_mm))) (avgOf (g.map (·.y_mm))) ∧
      avgOf (nfp.2.pins.map (·.x_mm)) = 0 ∧ avgOf (nfp.2.pins.map (·.y_mm)) = 0 := by
  obtain ⟨g, hg, hcg⟩ := centerAll_ok_mem hok nfp hmem
  obtain ⟨hgne, hcps⟩ := centerGroup_ok_inv hcg
  refine ⟨g, hg, hgne, hcps, ?_, ?_⟩
  · rw [hcps]
    exact avgOf_eq_zero (sum_centered_x_zero hgne _)
  · rw [hcps]
    exact avgOf_eq_zero (sum_centered_y_zero hgne _)

/-- The spec's centering example: footprint "U1" with pins at (0,0),
(2,0), (1,3), in a Millimeters document so coordinates pass through. -/
def demoPins : List Pin := [⟨"N1", "U1", "1", "A", 0, 0, "", 0⟩,
  ⟨"N2", "U1", "2", "B", 2, 0, "", 0⟩, ⟨"N3", "U1", "3", "C", 1, 3, "", 0⟩]

/-- Content wrapper for `demoPins`. -/
def demoContent : Content := ⟨.millimeters, [], demoPins, [], [], []⟩

/-- The centered pins the spec's example expects: (-1,-1), (1,-1),
(0,2). -/
def demoCentered : List IPin := [⟨"A", "1", -1, -1, 0⟩, ⟨"B", "2", 1, -1, 0⟩,
  ⟨"C", "3", 0, 2, 0⟩]

/-- Closed instance of `footprint_centering` at the spec's three-pin
example, together with the computed centered footprint. -/
lemma from_parsed_demoContent :
    from_parsed demoContent = .ok [("U1", ⟨demoCentered⟩)] := by
  simp only [from_parsed, demoContent, demoPins, demoCentered, groupPins, interpPin,
    upsertPin, centerAll, centerGroup, avgOf, List.foldl, Res.bind]
  norm_num
  simp

theorem footprint_centering_witness :
    from_parsed demoContent = .ok [("U1", ⟨demoCentered⟩)] ∧
    ∃ g, ("U1", g) ∈ groupPins demoContent.units demoContent.pins ∧ g ≠ [] ∧
      demoCentered = centeredBy g (avgOf (g.map (·.x_mm))) (avgOf (g.map (·.y_mm))) ∧
      avgOf (demoCentered.map (·.x_mm)) = 0 ∧ avgOf (demoCentered.map (·.y_mm)) = 0 :=
  ⟨from_parsed_demoContent,
   footprint_centering demoContent [("U1", ⟨demoCentered⟩)] from_parsed_demoContent
     ("U1", ⟨demoCentered⟩) (List.mem_singleton.mpr rfl)⟩

/-- Constant zlib oracle: everything inflates to the empty output. -/
def inflC6 : List Nat → Option (List Nat) := fun _ => some []

/-- A container whose declared content length (1) exceeds the true
decompressed size (0) under `inflC6` by one byte. -/
def B0c : List Nat := [1, 0, 0, 0, 0x78, 0, 0, 0, 0, 5, 0, 0, 0, 4, 0, 0, 0]

/-- The same container with the correct declared length 0: a valid
container under `inflC6`. -/
def Pw6 : List Nat := [0, 0, 0, 0, 0x78, 0, 0, 0, 0, 5, 0, 0, 0, 4, 0, 0, 0]

/-- C6 counterexample: on a buffer declaring `cLen` one larger than
the true decompressed size, the no-key trial does fail with
SizeMismatch, but that error is treated as recoverable and the next
keys are tried, so `decode` as a whole surfaces the LAST trial's
InvalidMagic — not a SizeMismatch error as the claim states. -/
theorem size_mismatch_not_surfaced :
    readLE32 B0c 0 = 1 ∧
    inflC6 (B0c.drop 4) = some [] ∧
    try_process inflC6 B0c none = .err .sizeMismatch ∧
    decode inflC6 B0c = .err .invalidMagic ∧
    decode inflC6 B0c ≠ .err .sizeMismatch := by decide

/-- C6 (amended): a trial whose zlib stream inflates to a length
different from the declared content length fails with SizeMismatch
(the overall decode then moves on to the next key and fails with the
last trial's error); and any trial that returns `Ok` returns content
and description of exactly their declared lengths — never truncated
or padded data. -/
theorem size_mismatch_handling :
    (∀ (infl : List Nat → Option (List Nat)) (data out : List Nat),
      data.get? 4 = some 0x78 →
      infl (data.drop 4) = some out →
      out.length ≠ readLE32 data 0 →
      try_process infl data none = .err .sizeMismatch) ∧
    (∀ (infl : List Nat → Option (List Nat)) (data : List Nat) (key : Option (Nat → Nat))
        (c d : List Nat),
      try_process infl data key = .ok (c, d) →
      c.length = readLE32 (decryptedOf key data) 0 ∧
      ∃ pm, d.length = readLE32 ((decryptedOf key data).drop pm) 0) := by
  refine ⟨?_, fun infl data key c d h => try_process_ok_lengths h⟩
  intro infl data out hg hi hne
  have hlen : 4 < data.length := by
    obtain ⟨h4, -⟩ := List.get?_eq_some.mp hg
    exact h4
  have hg' : data[4]? = some 0x78 := by
    rw [← List.get?_eq_getElem?]
    exact hg
  have c1 : 4 ≤ data.length := by omega
  have hhead : readLE32 (data.take 4) 0 = readLE32 data 0 := readLE32_take4 data c1
  simp [try_process, decryptedOf, idxChk, subChk, sliceChk, decompress, Res.bind,
    hg', hi, c1, hhead, hne]

/-- Closed instances of `size_mismatch_handling` with its hypotheses
discharged: the mismatching buffer `B0c` and the valid container
`Pw6`. -/
theorem size_mismatch_handling_witness :
    try_process inflC6 B0c none = .err .sizeMismatch ∧
    (([] : List Nat).length = readLE32 (decryptedOf none Pw6) 0 ∧
     ∃ pm, ([] : List Nat).length = readLE32 ((decryptedOf none Pw6).drop pm) 0) :=
  ⟨size_mismatch_handling.1 inflC6 B0c [] (by decide) (by decide) (by decide),
   size_mismatch_handling.2 inflC6 Pw6 none [] [] (by decide)⟩

/-- C3 (amended): decode tries no key, then FZ ("A"), then CAE ("B"),
accepting a trial only if byte 4 of its (decrypted) buffer is 0x78.
For a valid container P encrypted under key "B", PROVIDED the
encrypted bytes and their key-"A" decryption do not coincidentally
have 0x78 at offset 4, the no-key and key-"A" trials fail with
InvalidMagic and decode returns the key-"B" trial's result (key-"B"
decryption being the inverse of encryption). -/
theorem decoder_trial_order (infl : List Nat → Option (List Nat)) (P : List Nat)
    (r : List Nat × List Nat)
    (hok : try_process infl P none = .ok r)
    (h1 : (encrypt CAE_EXPANDED_KEY P).get? 4 ≠ some 0x78)
    (h2 : (decrypt FZ_EXPANDED_KEY (encrypt CAE_EXPANDED_KEY P)).get? 4 ≠ some 0x78) :
    try_process infl (encrypt CAE_EXPANDED_KEY P) none = .err .invalidMagic ∧
    try_process infl (encrypt CAE_EXPANDED_KEY P) (some FZ_EXPANDED_KEY) = .err .invalidMagic ∧
    decode infl (encrypt CAE_EXPANDED_KEY P) = .ok r := by
  have hPlen : 4 < P.length := try_process_ok_length hok
  have hElen : 4 < (encrypt CAE_EXPANDED_KEY P).length := by
    rw [encrypt_length]
    exact hPlen
  obtain ⟨b1, hb1⟩ : ∃ b, (encrypt CAE_EXPANDED_KEY P).get? 4 = some b := by
    cases hgg : (encrypt CAE_EXPANDED_KEY P).get? 4 with
    | none => exact absurd (List.get?_eq_none.mp hgg) (by omega)
    | some b => exact ⟨b, rfl⟩
  have hb1ne : b1 ≠ 0x78 := fun hh => h1 (hh ▸ hb1)
  have t1 : try_process infl (encrypt CAE_EXPANDED_KEY P) none = .err .invalidMagic :=
    try_process_magic_fail hb1 hb1ne
  have hDlen : 4 < (decrypt FZ_EXPANDED_KEY (encrypt CAE_EXPANDED_KEY P)).length := by
    rw [decrypt_length]
    exact hElen
  obtain ⟨b2, hb2⟩ :
      ∃ b, (decrypt FZ_EXPANDED_KEY (encrypt CAE_EXPANDED_KEY P)).get? 4 = some b := by
    cases hgg : (decrypt FZ_EXPANDED_KEY (encrypt CAE_EXPANDED_KEY P)).get? 4 with
    | none => exact absurd (List.get?_eq_none.mp hgg) (by omega)
    | some b => exact ⟨b, rfl⟩
  have hb2ne : b2 ≠ 0x78 := fun hh => h2 (hh ▸ hb2)
  have t2 : try_process infl (encrypt CAE_EXPANDED_KEY P) (some FZ_EXPANDED_KEY) =
      .err .invalidMagic :=
    try_process_magic_fail hb2 hb2ne
  have t3 : try_process infl (encrypt CAE_EXPANDED_KEY P) (some CAE_EXPANDED_KEY) = .ok r := by
    rw [try_process_congr (show decryptedOf (some CAE_EXPANDED_KEY)
      (encrypt CAE_EXPANDED_KEY P) = decryptedOf none P from decrypt_encrypt _ _)]
    exact hok
  refine ⟨t1, t2, ?_⟩
  simp [decode, Res.orTry, t1, t2, t3]

/-- zlib oracle for the C3 counterexample: 4-byte streams (the
description slice) inflate to nothing, everything else to 3 zero
bytes. -/
def inflC3 : List Nat → Option (List Nat) := fun d =>
  if d.length = 4 then some [] else some (List.replicate 3 0)

/-- A valid container (content length 3) whose key-"B" encryption
happens to carry 0x78 at offset 4. -/
def P1c : List Nat := [3, 0, 0, 0, 0x78, 0, 0, 0, 0, 5, 0, 0, 0, 4, 0, 0, 0]

/-- `encrypt CAE_EXPANDED_KEY P1c`, precomputed. -/
def E1c : List Nat := [77, 71, 74, 130, 120, 222, 104, 8, 153, 187, 76, 72, 110, 169,
  217, 14, 204]

/-- C3 counterexample: `E1c` is the key-"B"-only encryption of the
valid container `P1c`, yet the no-key trial on it does NOT fail with
InvalidMagic — the encrypted byte at offset 4 happens to be 0x78, so
the trial proceeds and fails with SizeMismatch instead, while decode
still succeeds via key "B". -/
theorem decoder_trial_order_counterexample :
    E1c = encrypt CAE_EXPANDED_KEY P1c ∧
    try_process inflC3 P1c none = .ok (List.replicate 3 0, []) ∧
    try_process inflC3 E1c none = .err .sizeMismatch ∧
    try_process inflC3 E1c none ≠ .err .invalidMagic ∧
    decode inflC3 E1c = .ok (List.replicate 3 0, []) := by decide

set_option maxRecDepth 100000 in
/-- Closed instance of `decoder_trial_order` on the valid container
`Pw6` (its key-"B" encryption has byte 199 ≠ 0x78 at offset 4, and its
key-"A" decryption has byte 173 ≠ 0x78 there). -/
theorem decoder_trial_order_witness :
    try_process inflC6 (encrypt CAE_EXPANDED_KEY Pw6) none = .err .invalidMagic ∧
    try_process inflC6 (encrypt CAE_EXPANDED_KEY Pw6) (some FZ_EXPANDED_KEY) =
      .err .invalidMagic ∧
    decode inflC6 (encrypt CAE_EXPANDED_KEY Pw6) = .ok ([], []) :=
  decoder_trial_order inflC6 Pw6 ([], []) (by decide) (by decide) (by decide)

end PcbRepair
